import Mathlib

/-!
Shallow embedding of `src/sensor_msgs/msg/with_arrow.rs` from the
`r2r-msg-ext` repository: the bidirectional codec between ROS
`PointCloud2` messages and Arrow `StructArray` tables
(`PointCloud2ArrowExt::to_arrow_array` / `from_arrow_array`), together
with the `RosDataType` registry.

Modelling conventions:
* machine integers are `Nat`; `u32` casts (`as u32`) are `% 2^32`;
* scalar values (including `f32`/`f64`) are modelled by their bit
  patterns, since the codec only moves bytes (`from_le_bytes`,
  `to_le_bytes`, and the big-endian variants) and never computes with
  the numeric value;
* a Rust `Result` together with the possibility of a panic (slice
  indexing out of bounds, `copy_from_slice` length mismatch,
  `chunks(0)`, and the validation inside `StructArray::from`) is
  modelled by the three-valued `RustOutcome`;
* `arrow_schema::DataType::size()` is the library's memory-accounting
  function (`std::mem::size_of_val(self)` plus heap parts), not the
  primitive byte width; on a 64-bit target `size_of::<DataType>()` is
  24 bytes and `size_of::<Field>()` is 112 bytes, and `Field::size()`
  adds the data type's size and the name's capacity (equal to its
  length for names built from `&str`).
-/

namespace R2RMsgExt

/-- The eight Arrow primitive scalar kinds reachable from the codec
(`Int8 .. Float64`).  `f32`/`f64` values are carried as bit patterns. -/
inductive ScalarKind
  | i8 | u8 | i16 | u16 | i32 | u32 | f32 | f64
  deriving DecidableEq, Repr

/-- Byte width of one element of the kind (what `to_le_bytes` emits). -/
def ScalarKind.width : ScalarKind → Nat
  | .i8 => 1 | .u8 => 1
  | .i16 => 2 | .u16 => 2
  | .i32 => 4 | .u32 => 4
  | .f32 => 4 | .f64 => 8

/-- The fragment of `arrow::datatypes::DataType` the codec touches:
primitive types and `FixedSizeList` (which stores its child `Field`,
modelled by its name and data type, plus the list length). -/
inductive DataType
  | prim (kind : ScalarKind)
  | fixedSizeList (childName : String) (child : DataType) (listLen : Nat)
  deriving DecidableEq, Repr

/-- The `RosDataType` enum from `with_arrow.rs` (`#[repr(u8)]`, discriminants 1..8). -/
inductive RosDataType
  | I8 | U8 | I16 | U16 | I32 | U32 | F32 | F64
  deriving DecidableEq, Repr

/-- The `u8` discriminant of the tag (`ros_dt as u8`). -/
def RosDataType.tagNum : RosDataType → Nat
  | .I8 => 1 | .U8 => 2 | .I16 => 3 | .U16 => 4
  | .I32 => 5 | .U32 => 6 | .F32 => 7 | .F64 => 8

/-- Source `RosDataType::from_u8` (derived `FromPrimitive`). -/
def RosDataType.fromU8 (n : Nat) : Option RosDataType :=
  if n = 1 then some .I8 else if n = 2 then some .U8
  else if n = 3 then some .I16 else if n = 4 then some .U16
  else if n = 5 then some .I32 else if n = 6 then some .U32
  else if n = 7 then some .F32 else if n = 8 then some .F64 else none

/-- Source `RosDataType::size` (lines 416-427): element byte width per tag. -/
def RosDataType.size : RosDataType → Nat
  | .I8 => 1 | .U8 => 1 | .I16 => 2 | .U16 => 2
  | .I32 => 4 | .U32 => 4 | .F32 => 4 | .F64 => 8

/-- Source `RosDataType::to_arrow_datatype` (lines 429-440).  Note the source
maps `U16` to `DataType::UInt8` (line 434). -/
def RosDataType.toArrowDatatype : RosDataType → DataType
  | .I8 => .prim .i8
  | .U8 => .prim .u8
  | .I16 => .prim .i16
  | .U16 => .prim .u8
  | .I32 => .prim .i32
  | .U32 => .prim .u32
  | .F32 => .prim .f32
  | .F64 => .prim .f64

/-- Source `RosDataType::from_arrow_datatype` (lines 442-454). -/
def RosDataType.fromArrowDatatype : DataType → Option RosDataType
  | .prim .i8 => some .I8
  | .prim .u8 => some .U8
  | .prim .i16 => some .I16
  | .prim .u16 => some .U16
  | .prim .i32 => some .I32
  | .prim .u32 => some .U32
  | .prim .f32 => some .F32
  | .prim .f64 => some .F64
  | .fixedSizeList _ _ _ => none

/-- The element type each `make_array!` / `make_list_array!` match arm
decodes into (lines 166-204): the proper kind of the tag, e.g. `U16`
decodes into a `UInt16Array` even though the declared `Field` uses the
(buggy) `to_arrow_datatype` result. -/
def RosDataType.arrayKind : RosDataType → ScalarKind
  | .I8 => .i8 | .U8 => .u8 | .I16 => .i16 | .U16 => .u16
  | .I32 => .i32 | .U32 => .u32 | .F32 => .f32 | .F64 => .f64

/-- Value of `std::mem::size_of::<arrow_schema::DataType>()` on a 64-bit target. -/
def dataTypeStructBytes : Nat := 24

/-- Value of `std::mem::size_of::<arrow_schema::Field>()` on a 64-bit target. -/
def fieldStructBytes : Nat := 112

/-- The library function `arrow_schema::DataType::size()`: memory-accounting size in bytes
(`size_of_val(self)`, plus, for `FixedSizeList`, the child
`Field::size()`, which itself adds the child data type's size and the
name's heap capacity). -/
def DataType.memSize : DataType → Nat
  | .prim _ => dataTypeStructBytes
  | .fixedSizeList nm child _ =>
      dataTypeStructBytes +
        (fieldStructBytes - dataTypeStructBytes + child.memSize + nm.length)

/-- Little-endian byte list to bit pattern. -/
def bytesToNatLE : List Nat → Nat
  | [] => 0
  | b :: bs => b + 256 * bytesToNatLE bs

/-- Rust `from_be_bytes` / `from_le_bytes` selected by the endian flag,
returning the bit pattern of the decoded element. -/
def fromBytes (isBe : Bool) (bs : List Nat) : Nat :=
  if isBe then bytesToNatLE bs.reverse else bytesToNatLE bs

/-- Little-endian byte list of a bit pattern, `w` bytes wide. -/
def natToBytesLE : Nat → Nat → List Nat
  | 0, _ => []
  | w + 1, n => n % 256 :: natToBytesLE w (n / 256)

/-- Rust `to_be_bytes` / `to_le_bytes` selected by the endian flag. -/
def toBytes (isBe : Bool) (w n : Nat) : List Nat :=
  if isBe then (natToBytesLE w n).reverse else natToBytesLE w n

/-- Outcome of running a fallible piece of Rust: a value, an `anyhow`
error (`ensure!`/`bail!`), or a panic/abort. -/
inductive RustOutcome (α : Type)
  | ok (val : α)
  | err (msg : String)
  | panicked
  deriving DecidableEq, Repr

/-- Sequencing that propagates errors and panics. -/
def RustOutcome.bind {α β : Type} : RustOutcome α → (α → RustOutcome β) → RustOutcome β
  | .ok a, f => f a
  | .err e, _ => .err e
  | .panicked, _ => .panicked

/-- Mapping over a successful outcome. -/
def RustOutcome.map {α β : Type} (f : α → β) : RustOutcome α → RustOutcome β
  | .ok a => .ok (f a)
  | .err e => .err e
  | .panicked => .panicked

/-- Rust `Iterator::map` plus `try_collect`: stops at the first error or panic. -/
def mapOutcome {α β : Type} (f : α → RustOutcome β) : List α → RustOutcome (List β)
  | [] => .ok []
  | x :: xs => (f x).bind fun y => (mapOutcome f xs).map fun ys => y :: ys

/-- Fuel-driven worker for `listChunks` (fuel bounds the number of
chunks; callers pass the list length, which suffices for `n > 0`). -/
def chunksGo {α : Type} (n : Nat) : Nat → List α → List (List α)
  | _, [] => []
  | 0, _ :: _ => []
  | fuel + 1, x :: xs => ((x :: xs).take n) :: chunksGo n fuel ((x :: xs).drop n)

/-- Rust `slice::chunks(n)` for `n > 0` (callers model the `n = 0`
panic separately). -/
def listChunks {α : Type} (n : Nat) (l : List α) : List (List α) :=
  if n = 0 then [] else chunksGo n l.length l

/-- Concatenation of a list of lists. -/
def joinList {α : Type} : List (List α) → List α
  | [] => []
  | l :: ls => l ++ joinList ls

/-- An Arrow `Field` as far as the codec observes it: name and type
(`Field::new(name, data_type, false)`). -/
structure ArrowField where
  name : String
  dataType : DataType
  deriving DecidableEq, Repr

/-- An Arrow array: a primitive array of bit patterns, or a
`FixedSizeListArray` (child field name and kind, declared list length,
and the per-row element lists). -/
inductive ArrowArray
  | prim (kind : ScalarKind) (values : List Nat)
  | fixedSizeList (childName : String) (childKind : ScalarKind) (listLen : Nat)
      (values : List (List Nat))
  deriving DecidableEq, Repr

/-- Method `Array::data_type()` of the model array. -/
def ArrowArray.dataType : ArrowArray → DataType
  | .prim k _ => .prim k
  | .fixedSizeList nm k n _ => .fixedSizeList nm (.prim k) n

/-- Method `Array::len()` of the model array. -/
def ArrowArray.length : ArrowArray → Nat
  | .prim _ vs => vs.length
  | .fixedSizeList _ _ _ vs => vs.length

/-- A `StructArray` as the codec observes it: named columns in order. -/
abbrev StructArrayModel := List (ArrowField × ArrowArray)

/-- Method `StructArray::len()`: the length of the first column (0 if none). -/
def structLen (arr : StructArrayModel) : Nat :=
  match arr with
  | [] => 0
  | c :: _ => c.2.length

/-- ROS `std_msgs::msg::Header`, passed through untouched by the codec. -/
structure Header where
  frame_id : String := ""
  deriving DecidableEq, Repr

/-- ROS `sensor_msgs::msg::PointField`. -/
structure PointField where
  name : String
  offset : Nat
  datatype : Nat
  count : Nat
  deriving DecidableEq, Repr

/-- ROS `sensor_msgs::msg::PointCloud2` (all integer fields are `u32`). -/
structure PointCloud2 where
  header : Header
  height : Nat
  width : Nat
  fields : List PointField
  is_bigendian : Bool
  point_step : Nat
  row_step : Nat
  data : List Nat
  is_dense : Bool
  deriving DecidableEq, Repr

/-- The resolved per-field record built at lines 130-136. -/
structure FieldDesc where
  field : ArrowField
  datatype : RosDataType
  offset : Nat
  data_size : Nat
  count : Nat
  deriving DecidableEq, Repr

/-- Lines 114-138: resolve every `PointField` through the registry,
failing on the first unknown tag. -/
def resolveFields : List PointField → RustOutcome (List FieldDesc) :=
  mapOutcome fun f =>
    match RosDataType.fromU8 f.datatype with
    | none => .err ("Unsupported datatype " ++ toString f.datatype)
    | some dt =>
        .ok { field := ⟨f.name, dt.toArrowDatatype⟩, datatype := dt,
              offset := f.offset, data_size := dt.size, count := f.count }

/-- Lines 140-143: all per-point byte slices, in row-major order
(`data.chunks(row_step)`, each row truncated to `point_step * width`
and chunked by `point_step`). -/
def decodePoints (width point_step row_step : Nat) (data : List Nat) :
    List (List Nat) :=
  joinList ((listChunks row_step data).map fun row =>
    listChunks point_step (row.take (point_step * width)))

/-- Line 160: `point_bytes[start..end]`, panicking when the span runs
past the end of the point record. -/
def sliceSpan (offset span : Nat) (point : List Nat) : RustOutcome (List Nat) :=
  if offset + span ≤ point.length then .ok ((point.drop offset).take span)
  else .panicked

/-- Lines 147-207: build one column.  `count == 1` uses `make_array!`
(a primitive array of the tag's kind); otherwise `make_list_array!`
builds a `FixedSizeListArray` whose child field reuses the column name.
The pair retains the `Field` declared at line 128, whose data type came
from `to_arrow_datatype`. -/
def buildColumn (is_be : Bool) (points : List (List Nat)) (fd : FieldDesc) :
    RustOutcome (ArrowField × ArrowArray) :=
  (mapOutcome (sliceSpan fd.offset (fd.data_size * fd.count)) points).bind
    fun spans =>
      let elems := (joinList (spans.map (listChunks fd.data_size))).map
        (fromBytes is_be)
      if fd.count = 1 then
        .ok (fd.field, .prim fd.datatype.arrayKind elems)
      else
        .ok (fd.field, .fixedSizeList fd.field.name fd.datatype.arrayKind
              fd.count (listChunks fd.count elems))

/-- Lines 145-208: build all columns.  `data.chunks(row_step)` is
created per field (panics when `row_step = 0` and a field exists) and
each pulled row is chunked by `point_step` (panics when a row exists
and `point_step = 0`). -/
def buildColumns (is_be : Bool) (width point_step row_step : Nat)
    (data : List Nat) (fds : List FieldDesc) :
    RustOutcome (List (ArrowField × ArrowArray)) :=
  match fds with
  | [] => .ok []
  | _ :: _ =>
    if row_step = 0 then .panicked
    else if listChunks row_step data ≠ [] ∧ point_step = 0 then .panicked
    else mapOutcome
      (buildColumn is_be (decodePoints width point_step row_step data)) fds

/-- Line 210, `StructArray::from`: `try_new` validates that every
declared field type equals its array's type and that all columns have
one common length, and the `From` impl unwraps — a violation panics. -/
def structArrayFrom (cols : List (ArrowField × ArrowArray)) :
    RustOutcome (List (ArrowField × ArrowArray)) :=
  if (∀ c ∈ cols, c.1.dataType = c.2.dataType) ∧
     (∀ c ∈ cols, c.2.length = structLen cols) then .ok cols
  else .panicked

/-- Source `PointCloud2::to_arrow_array` (lines 87-212): the two `ensure!`
size checks, registry resolution, column construction, and the final
`StructArray::from`. -/
def toArrowArray (pcd : PointCloud2) : RustOutcome (List (ArrowField × ArrowArray)) :=
  if pcd.width * pcd.point_step ≤ pcd.row_step then
    if pcd.data.length = pcd.row_step * pcd.height then
      (resolveFields pcd.fields).bind fun fds =>
        (buildColumns pcd.is_bigendian pcd.width pcd.point_step pcd.row_step
            pcd.data fds).bind structArrayFrom
    else .err "Invalid data size"
  else .err "Assertion width point_step row_step failed"

/-- Rust `as u32` cast: truncation to 32 bits. -/
def u32Mod (n : Nat) : Nat := n % 4294967296

/-- Lines 216-252: derive the `PointField` list from the columns,
accumulating byte offsets by `DataType::size()` (the memory-accounting
size) per scalar column and by child `DataType::size() * count` per
`FixedSizeList` column; a column that is neither a supported primitive
nor a `FixedSizeList` of one fails with `bail!`.  Returns the fields
and the final accumulated offset (`point_step`). -/
def encodeFields : Nat → List (ArrowField × ArrowArray) →
    RustOutcome (List PointField × Nat)
  | off, [] => .ok ([], off)
  | off, (f, col) :: rest =>
    match RosDataType.fromArrowDatatype col.dataType with
    | some rd =>
        (encodeFields (off + col.dataType.memSize) rest).map fun p =>
          ({ name := f.name, offset := u32Mod off, datatype := rd.tagNum,
             count := 1 } :: p.1, p.2)
    | none =>
        match col.dataType with
        | .fixedSizeList _ child cnt =>
            match RosDataType.fromArrowDatatype child with
            | some rd =>
                (encodeFields (off + child.memSize * cnt) rest).map fun p =>
                  ({ name := f.name, offset := u32Mod off,
                     datatype := rd.tagNum, count := u32Mod cnt } :: p.1, p.2)
            | none => .err "Unsupported data type"
        | _ => .err "Unsupported data type"

/-- Overwrite `l[start .. start + bytes.length)` with `bytes` (callers
establish that the range is inside the list). -/
def setRange (l : List Nat) (start : Nat) (bytes : List Nat) : List Nat :=
  l.take start ++ bytes ++ l.drop (start + bytes.length)

/-- Lines 272-286, `write_column!`: for each row in step, slice
`row[start .. start + rangeLen)` (panics when out of bounds) and
`copy_from_slice` the element's native-endian bytes (panics when the
slice length differs from the element width).  `izip!` stops at the
shorter of rows and values. -/
def writeScalarRows (is_be : Bool) (k : ScalarKind) (start rangeLen : Nat) :
    List (List Nat) → List Nat → RustOutcome (List (List Nat))
  | rows, [] => .ok rows
  | rows, v :: vs =>
    match rows with
    | [] => .ok []
    | row :: rest =>
      if start + rangeLen ≤ row.length then
        if rangeLen = k.width then
          (writeScalarRows is_be k start rangeLen rest vs).map fun out =>
            setRange row start (toBytes is_be k.width v) :: out
        else .panicked
      else .panicked

/-- Lines 298-302 / 309-313: `point_bytes.chunks_mut(elemSize)` zipped
with one list entry's values; each pair `copy_from_slice`s the
element's bytes (panicking when the chunk length differs from the
element width).  Returns the rewritten slice. -/
def writeElems (is_be : Bool) (k : ScalarKind) (elemSize : Nat) :
    List Nat → List Nat → RustOutcome (List Nat)
  | slice, [] => .ok slice
  | slice, v :: vs =>
    match slice with
    | [] => .ok []
    | s :: srest =>
      if ((s :: srest).take elemSize).length = k.width then
        (writeElems is_be k elemSize ((s :: srest).drop elemSize) vs).map
          fun out => toBytes is_be k.width v ++ out
      else .panicked

/-- Lines 288-317, `write_list_column!`: per row, slice
`row[start .. start + rangeLen)` (panicking when out of bounds), chunk
it by the child `DataType::size()` (`chunks_mut(0)` panics), and write
the row's list entry. -/
def writeListRows (is_be : Bool) (k : ScalarKind) (start rangeLen elemSize : Nat) :
    List (List Nat) → List (List Nat) → RustOutcome (List (List Nat))
  | rows, [] => .ok rows
  | rows, entry :: entries =>
    match rows with
    | [] => .ok []
    | row :: rest =>
      if start + rangeLen ≤ row.length then
        if elemSize = 0 then .panicked
        else
          (writeElems is_be k elemSize ((row.drop start).take rangeLen)
              entry).bind fun slice =>
            (writeListRows is_be k start rangeLen elemSize rest entries).map
              fun out => setRange row start slice :: out
      else .panicked

/-- Lines 259-377: write one column into the data buffer.  The byte
range per record is `offset .. offset + arrow_data_type.size() * count`
(line 262-266, again the memory-accounting size), the buffer is walked
with `data.chunks_mut(row_step)` (panics for `row_step = 0`). -/
def writeColumn (is_be : Bool) (row_step : Nat) (f : PointField)
    (col : ArrowArray) (data : List Nat) : RustOutcome (List Nat) :=
  if row_step = 0 then .panicked
  else
    let rows := listChunks row_step data
    match col with
    | .prim k vals =>
        (writeScalarRows is_be k f.offset (col.dataType.memSize * f.count)
            rows vals).map joinList
    | .fixedSizeList _ k _ entries =>
        (writeListRows is_be k f.offset (col.dataType.memSize * f.count)
            (DataType.prim k).memSize rows entries).map joinList

/-- Line 259, `izip!(array.columns(), &fields).for_each`: write every
column in order; the first panic aborts. -/
def writeAll (is_be : Bool) (row_step : Nat) :
    List (PointField × ArrowArray) → List Nat → RustOutcome (List Nat)
  | [], data => .ok data
  | (f, col) :: rest, data =>
      (writeColumn is_be row_step f col data).bind
        (writeAll is_be row_step rest)

/-- Source `PointCloud2::from_arrow_array` (lines 214-390).  `is_be` models
`cfg!(target_endian = "big")`; it selects the byte order of every
serialized element and is stored in the `is_bigendian` flag.  The
output allocates `height * row_step` zero bytes (line 257), emits
`width = 1`, `row_step = point_step` and `is_dense = true`, and casts
the `usize` accumulators to `u32`. -/
def fromArrowArray (is_be : Bool) (header : Header) (arr : StructArrayModel) :
    RustOutcome PointCloud2 :=
  (encodeFields 0 arr).bind fun p =>
    let fields := p.1
    let point_step := p.2
    let height := structLen arr
    (writeAll is_be point_step (fields.zip (arr.map Prod.snd))
        (List.replicate (height * point_step) 0)).map fun data =>
      { header := header, height := u32Mod height, width := 1,
        fields := fields, is_bigendian := is_be,
        point_step := u32Mod point_step, row_step := u32Mod point_step,
        data := data, is_dense := true }

/-- Decidable hypothesis bundle for the scalar decode success lemma:
the field's tag is known, is not the aliased `U16`, has `count = 1`,
and its span lies inside the record. -/
def goodFieldB (point_step : Nat) (f : PointField) : Bool :=
  match RosDataType.fromU8 f.datatype with
  | some t => decide (t ≠ RosDataType.U16 ∧ f.count = 1 ∧
      f.offset + t.size ≤ point_step)
  | none => false

/-- The field's tag is known to the registry. -/
def knownTagB (f : PointField) : Bool := (RosDataType.fromU8 f.datatype).isSome

/-- The field's span `offset + size * count` runs past `point_step`. -/
def spanOOBB (point_step : Nat) (f : PointField) : Bool :=
  match RosDataType.fromU8 f.datatype with
  | some t => decide (point_step < f.offset + t.size * f.count)
  | none => false

/-- Well-formedness arrow guarantees for a column of a `StructArray` of
length `n`: the column has `n` rows, and a `FixedSizeListArray` has its
declared entry length (a non-negative `i32`, hence `< 2^31`) in every
row. -/
def wfColB (n : Nat) : ArrowArray → Bool
  | .prim _ vs => decide (vs.length = n)
  | .fixedSizeList _ _ ln vs =>
      decide (vs.length = n ∧ ln < 2147483648 ∧ ∀ v ∈ vs, v.length = ln)

/-- Well-formedness of a `StructArray` model value (guaranteed by
`arrow` for every real `StructArray`). -/
def wfStructB (arr : StructArrayModel) : Bool :=
  arr.all fun c => wfColB (structLen arr) c.2

/-- The `FieldDesc` that `resolveFields` produces for a field whose tag
is known (scaffolding for stating lemmas; the `none` branch is never
reached under a `knownTagB` hypothesis). -/
def descOf (f : PointField) : FieldDesc :=
  match RosDataType.fromU8 f.datatype with
  | some t => { field := ⟨f.name, t.toArrowDatatype⟩, datatype := t,
                offset := f.offset, data_size := t.size, count := f.count }
  | none => { field := ⟨f.name, .prim .i8⟩, datatype := .I8,
              offset := f.offset, data_size := 1, count := f.count }

/-- The column `to_arrow_array` produces for a known scalar
(`count = 1`) field, given the per-point byte slices (scaffolding). -/
def scalarColOf (is_be : Bool) (points : List (List Nat)) (f : PointField) :
    ArrowField × ArrowArray :=
  match RosDataType.fromU8 f.datatype with
  | some t =>
      (⟨f.name, t.toArrowDatatype⟩, .prim t.arrayKind
        (points.map fun p => fromBytes is_be ((p.drop f.offset).take t.size)))
  | none => (⟨f.name, .prim .i8⟩, .prim .i8 [])

/-- The number of bytes `from_arrow_array` advances the running offset
by for one column. -/
def colSpan : ArrowArray → Nat
  | .prim _ _ => dataTypeStructBytes
  | .fixedSizeList _ _ cnt _ => dataTypeStructBytes * cnt

/-- Total offset advance over a list of columns. -/
def sumSpans : List ArrowArray → Nat
  | [] => 0
  | c :: cs => colSpan c + sumSpans cs

/-- The relation between an emitted `PointField` and its source column
that the offset loop establishes (scaffolding). -/
def fieldCountQ (f : PointField) (col : ArrowArray) : Prop :=
  match col with
  | .prim _ _ => f.count = 1
  | .fixedSizeList _ _ cnt _ => f.count = u32Mod cnt

/-- An empty header, used by the concrete check inputs. -/
def hdr0 : Header := { frame_id := "" }

/-- C1 failing input: a single-column table holding one `UInt16` value. -/
def arrC1 : StructArrayModel := [(⟨"v", .prim .u16⟩, .prim .u16 [5])]

/-- C3 counterexample input: one `count = 2` `U8` field satisfying the
size preconditions. -/
def pcdC3 : PointCloud2 :=
  { header := hdr0, height := 1, width := 1,
    fields := [{ name := "x", offset := 0, datatype := 2, count := 2 }],
    is_bigendian := false, point_step := 2, row_step := 2,
    data := [1, 2], is_dense := true }

/-- C3 witness input: a valid two-point cloud with one `U8` field. -/
def pcdC3w : PointCloud2 :=
  { header := hdr0, height := 2, width := 1,
    fields := [{ name := "x", offset := 0, datatype := 2, count := 1 }],
    is_bigendian := false, point_step := 1, row_step := 1,
    data := [7, 9], is_dense := true }

/-- C4 counterexample input, spec Scenario C: an `F64` field at offset 8
with `point_step = 12` (span end 16 > 12). -/
def pcdC4 : PointCloud2 :=
  { header := hdr0, height := 1, width := 1,
    fields := [{ name := "x", offset := 8, datatype := 8, count := 1 }],
    is_bigendian := false, point_step := 12, row_step := 12,
    data := List.replicate 12 0, is_dense := true }

/-- C4 witness input: an `F32` field at offset 4 with `point_step = 6`
(span end 8 > 6). -/
def pcdC4w : PointCloud2 :=
  { header := hdr0, height := 1, width := 1,
    fields := [{ name := "y", offset := 4, datatype := 7, count := 1 }],
    is_bigendian := false, point_step := 6, row_step := 6,
    data := [0, 0, 0, 0, 0, 0], is_dense := true }

/-- C5 witness input: `width * point_step = 6 > 4 = row_step`. -/
def pcdC5w : PointCloud2 :=
  { header := hdr0, height := 1, width := 2, fields := [],
    is_bigendian := false, point_step := 3, row_step := 4,
    data := [], is_dense := true }

/-- C6 witness input: one empty `Float32` column. -/
def arrC6 : StructArrayModel := [(⟨"x", .prim .f32⟩, .prim .f32 [])]

/-- The `PointCloud2` that `from_arrow_array` produces for `arrC6`. -/
def pcC6 : PointCloud2 :=
  { header := hdr0, height := 0, width := 1,
    fields := [{ name := "x", offset := 0, datatype := 7, count := 1 }],
    is_bigendian := false, point_step := 24, row_step := 24,
    data := [], is_dense := true }

/-- C7 failing input: two `UInt8` columns (empty, so encoding
succeeds and the emitted offsets are observable). -/
def arrC7 : StructArrayModel :=
  [(⟨"x", .prim .u8⟩, .prim .u8 []), (⟨"y", .prim .u8⟩, .prim .u8 [])]

/-- The `PointCloud2` that `from_arrow_array` produces for `arrC7`. -/
def pcC7 : PointCloud2 :=
  { header := hdr0, height := 0, width := 1,
    fields := [{ name := "x", offset := 0, datatype := 2, count := 1 },
               { name := "y", offset := 24, datatype := 2, count := 1 }],
    is_bigendian := false, point_step := 48, row_step := 48,
    data := [], is_dense := true }

/-- C8 failing input, spec Scenario B: a `FixedSizeList` `u8 × 3`
column named `rgb` with rows `[[10,20,30],[40,50,60]]`. -/
def arrC8 : StructArrayModel :=
  [(⟨"rgb", .fixedSizeList "item" (.prim .u8) 3⟩,
    .fixedSizeList "item" .u8 3 [[10, 20, 30], [40, 50, 60]])]

/-- C9 witness input: one empty `Int16` column. -/
def arrC9 : StructArrayModel := [(⟨"x", .prim .i16⟩, .prim .i16 [])]

/-- The `PointCloud2` that `from_arrow_array` produces for `arrC9`. -/
def pcC9 : PointCloud2 :=
  { header := hdr0, height := 0, width := 1,
    fields := [{ name := "x", offset := 0, datatype := 3, count := 1 }],
    is_bigendian := false, point_step := 24, row_step := 24,
    data := [], is_dense := true }

/-- C10 witness input: two fields that share the name `"x"`. -/
def pcdC10w : PointCloud2 :=
  { header := hdr0, height := 1, width := 1,
    fields := [{ name := "x", offset := 0, datatype := 2, count := 1 },
               { name := "x", offset := 1, datatype := 2, count := 1 }],
    is_bigendian := false, point_step := 2, row_step := 2,
    data := [7, 9], is_dense := true }

@[simp]
theorem RustOutcome.bind_ok {α β : Type} (a : α) (f : α → RustOutcome β) :
    RustOutcome.bind (.ok a) f = f a := rfl

@[simp]
theorem RustOutcome.bind_err {α β : Type} (e : String) (f : α → RustOutcome β) :
    RustOutcome.bind (.err e) f = .err e := rfl

@[simp]
theorem RustOutcome.bind_panicked {α β : Type} (f : α → RustOutcome β) :
    RustOutcome.bind .panicked f = .panicked := rfl

@[simp]
theorem RustOutcome.map_ok {α β : Type} (g : α → β) (a : α) :
    RustOutcome.map g (.ok a) = .ok (g a) := rfl

@[simp]
theorem RustOutcome.map_err {α β : Type} (g : α → β) (e : String) :
    RustOutcome.map g (.err e) = .err e := rfl

@[simp]
theorem RustOutcome.map_panicked {α β : Type} (g : α → β) :
    RustOutcome.map g (.panicked : RustOutcome α) = .panicked := rfl

theorem RustOutcome.bind_eq_ok {α β : Type} {x : RustOutcome α}
    {f : α → RustOutcome β} {b : β} (h : RustOutcome.bind x f = .ok b) :
    ∃ a, x = .ok a ∧ f a = .ok b := by
  cases x with
  | ok a => exact ⟨a, rfl, h⟩
  | err e => simp [RustOutcome.bind] at h
  | panicked => simp [RustOutcome.bind] at h

theorem RustOutcome.map_eq_ok {α β : Type} {g : α → β} {x : RustOutcome α}
    {b : β} (h : RustOutcome.map g x = .ok b) : ∃ a, x = .ok a ∧ g a = b := by
  cases x with
  | ok a =>
      refine ⟨a, rfl, ?_⟩
      simpa [RustOutcome.map] using h
  | err e => simp [RustOutcome.map] at h
  | panicked => simp [RustOutcome.map] at h

@[simp]
theorem mapOutcome_nil {α β : Type} (f : α → RustOutcome β) :
    mapOutcome f [] = .ok [] := rfl

theorem mapOutcome_cons {α β : Type} (f : α → RustOutcome β) (x : α)
    (xs : List α) :
    mapOutcome f (x :: xs) =
      (f x).bind fun y => (mapOutcome f xs).map fun ys => y :: ys := rfl

theorem mapOutcome_ok_map {α β : Type} (f : α → RustOutcome β) (g : α → β) :
    ∀ (l : List α), (∀ x ∈ l, f x = .ok (g x)) →
      mapOutcome f l = .ok (l.map g)
  | [], _ => rfl
  | x :: xs, h => by
      have hx : f x = .ok (g x) := h x (by simp)
      have hxs : mapOutcome f xs = .ok (xs.map g) :=
        mapOutcome_ok_map f g xs fun y hy => h y (by simp [hy])
      simp [mapOutcome_cons, hx, hxs]

theorem mapOutcome_head_panicked {α β : Type} (f : α → RustOutcome β) (x : α)
    (xs : List α) (h : f x = .panicked) :
    mapOutcome f (x :: xs) = .panicked := by
  simp [mapOutcome_cons, h]

theorem mapOutcome_cons_ok {α β : Type} (f : α → RustOutcome β) (x : α)
    (xs : List α) (y : β) (h : f x = .ok y)
    (ht : mapOutcome f xs = .panicked) :
    mapOutcome f (x :: xs) = .panicked := by
  simp [mapOutcome_cons, h, ht]

theorem chunksGo_nil {α : Type} (n fuel : Nat) :
    chunksGo n fuel ([] : List α) = [] := by
  cases fuel <;> rfl

theorem chunksGo_fuel {α : Type} (n : Nat) (hn : 0 < n) :
    ∀ (fuel fuel' : Nat) (l : List α), l.length ≤ fuel → l.length ≤ fuel' →
      chunksGo n fuel l = chunksGo n fuel' l := by
  intro fuel
  induction fuel with
  | zero =>
      intro fuel' l h _
      have : l = [] := List.eq_nil_of_length_eq_zero (Nat.le_zero.mp h)
      subst this
      simp [chunksGo_nil]
  | succ a ih =>
      intro fuel' l h h'
      cases l with
      | nil => simp [chunksGo_nil]
      | cons x xs =>
          cases fuel' with
          | zero => simp at h'
          | succ b =>
              show ((x :: xs).take n) :: chunksGo n a ((x :: xs).drop n) =
                ((x :: xs).take n) :: chunksGo n b ((x :: xs).drop n)
              have hd : ((x :: xs).drop n).length ≤ a := by
                simp only [List.length_drop, List.length_cons]
                simp only [List.length_cons] at h
                omega
              have hd' : ((x :: xs).drop n).length ≤ b := by
                simp only [List.length_drop, List.length_cons]
                simp only [List.length_cons] at h'
                omega
              rw [ih b ((x :: xs).drop n) hd hd']

theorem listChunks_nil {α : Type} (n : Nat) :
    listChunks n ([] : List α) = [] := by
  unfold listChunks
  by_cases h : n = 0 <;> simp [h, chunksGo_nil]

theorem listChunks_step {α : Type} (n : Nat) (hn : 0 < n) (l : List α)
    (hl : l ≠ []) :
    listChunks n l = l.take n :: listChunks n (l.drop n) := by
  unfold listChunks
  rw [if_neg (Nat.pos_iff_ne_zero.mp hn), if_neg (Nat.pos_iff_ne_zero.mp hn)]
  cases l with
  | nil => exact absurd rfl hl
  | cons x xs =>
      show ((x :: xs).take n) :: chunksGo n (x :: xs).length.pred ((x :: xs).drop n) =
        ((x :: xs).take n) :: chunksGo n ((x :: xs).drop n).length ((x :: xs).drop n)
      rw [chunksGo_fuel n hn _ _ _ (by simp [List.length_drop]; omega) (le_refl _)]

theorem listChunks_ne_nil {α : Type} (n : Nat) (hn : 0 < n) (l : List α)
    (hl : l ≠ []) : listChunks n l ≠ [] := by
  rw [listChunks_step n hn l hl]
  simp

theorem joinList_nil {α : Type} : joinList ([] : List (List α)) = [] := rfl

theorem joinList_cons {α : Type} (l : List α) (ls : List (List α)) :
    joinList (l :: ls) = l ++ joinList ls := rfl

theorem joinList_length_map {α β : Type} (f : α → List β) (m : Nat) :
    ∀ (ls : List α), (∀ x ∈ ls, (f x).length = m) →
      (joinList (ls.map f)).length = ls.length * m
  | [], _ => by simp [joinList_nil]
  | x :: xs, h => by
      have hx := h x (by simp)
      have hxs := joinList_length_map f m xs fun y hy => h y (by simp [hy])
      simp [joinList_cons, hx, hxs, Nat.succ_mul, Nat.add_comm]

theorem mem_joinList {α : Type} {p : α} :
    ∀ {ls : List (List α)}, p ∈ joinList ls → ∃ l ∈ ls, p ∈ l := by
  intro ls
  induction ls with
  | nil => intro h; simp [joinList_nil] at h
  | cons l ls ih =>
      intro h
      rw [joinList_cons, List.mem_append] at h
      rcases h with h | h
      · exact ⟨l, by simp, h⟩
      · obtain ⟨l', hl', hp⟩ := ih h
        exact ⟨l', by simp [hl'], hp⟩

theorem joinList_singleton_map {α : Type} :
    ∀ (ls : List (List α)), joinList (ls.map fun s => [s]) = ls
  | [] => rfl
  | x :: xs => by simp [joinList_cons, joinList_singleton_map xs]

theorem listChunks_exact {α : Type} (n : Nat) (hn : 0 < n) :
    ∀ (k : Nat) (l : List α), l.length = n * k →
      (listChunks n l).length = k ∧ (∀ c ∈ listChunks n l, c.length = n) ∧
        joinList (listChunks n l) = l := by
  intro k
  induction k with
  | zero =>
      intro l hl
      have : l = [] := List.eq_nil_of_length_eq_zero (by omega)
      subst this
      simp [listChunks_nil, joinList_nil]
  | succ k ih =>
      intro l hl
      have hne : l ≠ [] := by
        intro h
        subst h
        simp only [List.length_nil] at hl
        have hpos := Nat.mul_pos hn (Nat.succ_pos k)
        exact absurd hl.symm (Nat.ne_of_gt hpos)
      have hge : n ≤ l.length := by
        rw [hl]
        calc n = n * 1 := (Nat.mul_one n).symm
          _ ≤ n * (k + 1) := Nat.mul_le_mul_left n (by omega)
      have hdrop : (l.drop n).length = n * k := by
        rw [List.length_drop, hl]
        rw [Nat.mul_succ]
        omega
      obtain ⟨ih1, ih2, ih3⟩ := ih (l.drop n) hdrop
      have htl : (l.take n).length = n := by
        rw [List.length_take]
        omega
      rw [listChunks_step n hn l hne]
      refine ⟨by simp [ih1], ?_, ?_⟩
      · intro c hc
        rcases List.mem_cons.mp hc with h | h
        · simp [h, htl]
        · exact ih2 c h
      · rw [joinList_cons, ih3, List.take_append_drop]

theorem listChunks_singleton {α : Type} (n : Nat) (hn : 0 < n) (l : List α)
    (hl : l.length = n) : listChunks n l = [l] := by
  have hne : l ≠ [] := by
    intro h
    subst h
    simp at hl
    omega
  rw [listChunks_step n hn l hne]
  have hd : l.drop n = [] := by
    apply List.eq_nil_of_length_eq_zero
    simp [List.length_drop, hl]
  rw [hd, listChunks_nil, List.take_of_length_le (le_of_eq hl)]

theorem map_congr_mem {α β : Type} {f g : α → β} :
    ∀ {l : List α}, (∀ x ∈ l, f x = g x) → l.map f = l.map g := by
  intro l
  induction l with
  | nil => intro _; rfl
  | cons x xs ih =>
      intro h
      simp only [List.map_cons]
      rw [h x (by simp), ih fun y hy => h y (by simp [hy])]

theorem RosDataType.size_pos : ∀ t : RosDataType, 0 < t.size := by
  intro t
  cases t <;> decide

theorem goodFieldB_spec {ps : Nat} {f : PointField}
    (h : goodFieldB ps f = true) :
    ∃ t, RosDataType.fromU8 f.datatype = some t ∧ t ≠ .U16 ∧ f.count = 1 ∧
      f.offset + t.size ≤ ps := by
  unfold goodFieldB at h
  cases hf : RosDataType.fromU8 f.datatype with
  | none => rw [hf] at h; simp at h
  | some t =>
      rw [hf] at h
      simp only [decide_eq_true_eq] at h
      exact ⟨t, rfl, h.1, h.2.1, h.2.2⟩

theorem knownTagB_spec {f : PointField} (h : knownTagB f = true) :
    ∃ t, RosDataType.fromU8 f.datatype = some t := by
  unfold knownTagB at h
  exact Option.isSome_iff_exists.mp h

theorem spanOOBB_spec {ps : Nat} {f : PointField}
    (h : spanOOBB ps f = true) :
    ∃ t, RosDataType.fromU8 f.datatype = some t ∧
      ps < f.offset + t.size * f.count := by
  unfold spanOOBB at h
  cases hf : RosDataType.fromU8 f.datatype with
  | none => rw [hf] at h; simp at h
  | some t =>
      rw [hf] at h
      simp only [decide_eq_true_eq] at h
      exact ⟨t, rfl, h⟩

theorem decodePoints_spec (width ps rs h : Nat) (data : List Nat)
    (hps : 0 < ps) (hrs : 0 < rs) (hfit : ps * width ≤ rs)
    (hlen : data.length = rs * h) :
    (decodePoints width ps rs data).length = h * width ∧
      ∀ p ∈ decodePoints width ps rs data, p.length = ps := by
  obtain ⟨hrl, hrm, _⟩ := listChunks_exact rs hrs h data hlen
  have hrow : ∀ row ∈ listChunks rs data,
      (listChunks ps (row.take (ps * width))).length = width ∧
        ∀ c ∈ listChunks ps (row.take (ps * width)), c.length = ps := by
    intro row hr
    have hrt : (row.take (ps * width)).length = ps * width := by
      rw [List.length_take, hrm row hr]
      omega
    obtain ⟨h1, h2, _⟩ := listChunks_exact ps hps width _ hrt
    exact ⟨h1, h2⟩
  constructor
  · unfold decodePoints
    rw [joinList_length_map _ width _ fun row hr => (hrow row hr).1, hrl]
  · intro p hp
    unfold decodePoints at hp
    obtain ⟨l, hl, hpl⟩ := mem_joinList hp
    obtain ⟨row, hrowm, rfl⟩ := List.mem_map.mp hl
    exact (hrow row hrowm).2 p hpl

theorem resolveFields_ok (fields : List PointField)
    (h : ∀ f ∈ fields, knownTagB f = true) :
    resolveFields fields = .ok (fields.map descOf) := by
  apply mapOutcome_ok_map
  intro f hf
  obtain ⟨t, ht⟩ := knownTagB_spec (h f hf)
  unfold descOf
  simp only [ht]

theorem buildColumn_ok_scalar (is_be : Bool) (points : List (List Nat))
    (ps : Nat) (hpts : ∀ p ∈ points, p.length = ps) (fd : FieldDesc)
    (hc : fd.count = 1) (hsz : 0 < fd.data_size)
    (hspan : fd.offset + fd.data_size ≤ ps) :
    buildColumn is_be points fd = .ok (fd.field, .prim fd.datatype.arrayKind
      (points.map fun p =>
        fromBytes is_be ((p.drop fd.offset).take fd.data_size))) := by
  unfold buildColumn
  have hslice : ∀ p ∈ points, sliceSpan fd.offset (fd.data_size * fd.count) p =
      .ok ((p.drop fd.offset).take fd.data_size) := by
    intro p hp
    unfold sliceSpan
    rw [hc, Nat.mul_one, if_pos (by rw [hpts p hp]; exact hspan)]
  rw [mapOutcome_ok_map _ _ points hslice]
  simp only [RustOutcome.bind_ok]
  have hchunks : ∀ s ∈ points.map fun p =>
      (p.drop fd.offset).take fd.data_size, listChunks fd.data_size s = [s] := by
    intro s hs
    obtain ⟨p, hp, rfl⟩ := List.mem_map.mp hs
    apply listChunks_singleton _ hsz
    rw [List.length_take, List.length_drop, hpts p hp]
    omega
  rw [map_congr_mem hchunks, joinList_singleton_map, if_pos hc, List.map_map]
  rfl

theorem buildColumn_ok_any (is_be : Bool) (points : List (List Nat)) (ps : Nat)
    (hpts : ∀ p ∈ points, p.length = ps) (fd : FieldDesc)
    (hspan : fd.offset + fd.data_size * fd.count ≤ ps) :
    ∃ v, buildColumn is_be points fd = .ok v := by
  unfold buildColumn
  have hslice : ∀ p ∈ points, sliceSpan fd.offset (fd.data_size * fd.count) p =
      .ok ((p.drop fd.offset).take (fd.data_size * fd.count)) := by
    intro p hp
    unfold sliceSpan
    rw [if_pos (by rw [hpts p hp]; exact hspan)]
  rw [mapOutcome_ok_map _ _ points hslice]
  simp only [RustOutcome.bind_ok]
  by_cases hc : fd.count = 1
  · exact ⟨_, by rw [if_pos hc]⟩
  · exact ⟨_, by rw [if_neg hc]⟩

theorem buildColumn_panicked (is_be : Bool) (p0 : List Nat)
    (rest : List (List Nat)) (fd : FieldDesc)
    (hoob : p0.length < fd.offset + fd.data_size * fd.count) :
    buildColumn is_be (p0 :: rest) fd = .panicked := by
  unfold buildColumn
  rw [mapOutcome_head_panicked]
  · rfl
  · unfold sliceSpan
    rw [if_neg (by omega)]

theorem toArrowDatatype_eq_arrayKind {t : RosDataType} (h : t ≠ .U16) :
    t.toArrowDatatype = .prim t.arrayKind := by
  cases t <;> first | rfl | exact absurd rfl h

theorem buildColumns_nil (is_be : Bool) (w ps rs : Nat) (data : List Nat) :
    buildColumns is_be w ps rs data [] = .ok [] := rfl

theorem buildColumns_cons (is_be : Bool) (w ps rs : Nat) (data : List Nat)
    (d : FieldDesc) (ds : List FieldDesc) :
    buildColumns is_be w ps rs data (d :: ds) =
      if rs = 0 then .panicked
      else if listChunks rs data ≠ [] ∧ ps = 0 then .panicked
      else mapOutcome (buildColumn is_be (decodePoints w ps rs data))
        (d :: ds) := rfl

theorem structLen_nil : structLen [] = 0 := rfl

theorem structLen_cons (c : ArrowField × ArrowArray)
    (cs : List (ArrowField × ArrowArray)) :
    structLen (c :: cs) = c.2.length := rfl

theorem structArrayFrom_ok (cols : List (ArrowField × ArrowArray))
    (h1 : ∀ c ∈ cols, c.1.dataType = c.2.dataType)
    (h2 : ∀ c ∈ cols, c.2.length = structLen cols) :
    structArrayFrom cols = .ok cols := by
  unfold structArrayFrom
  rw [if_pos ⟨h1, h2⟩]

theorem scalarColOf_name (is_be : Bool) (points : List (List Nat))
    (f : PointField) (h : knownTagB f = true) :
    (scalarColOf is_be points f).1.name = f.name := by
  obtain ⟨t, ht⟩ := knownTagB_spec h
  unfold scalarColOf
  simp [ht]

theorem scalarColOf_length (is_be : Bool) (points : List (List Nat))
    (f : PointField) (h : knownTagB f = true) :
    (scalarColOf is_be points f).2.length = points.length := by
  obtain ⟨t, ht⟩ := knownTagB_spec h
  unfold scalarColOf
  simp [ht, ArrowArray.length]

theorem goodFieldB_known {ps : Nat} {f : PointField}
    (h : goodFieldB ps f = true) : knownTagB f = true := by
  obtain ⟨t, ht, _⟩ := goodFieldB_spec h
  simp [knownTagB, ht]

theorem mapOutcome_buildColumn_ok (is_be : Bool) (points : List (List Nat))
    (ps : Nat) (hpts : ∀ p ∈ points, p.length = ps) :
    ∀ fields : List PointField, (∀ f ∈ fields, goodFieldB ps f = true) →
      mapOutcome (buildColumn is_be points) (fields.map descOf) =
        .ok (fields.map (scalarColOf is_be points))
  | [], _ => rfl
  | f :: fs, h => by
      obtain ⟨t, ht, hne, hc1, hsp⟩ := goodFieldB_spec (h f (by simp))
      have hd : descOf f =
          ⟨⟨f.name, t.toArrowDatatype⟩, t, f.offset, t.size, f.count⟩ := by
        unfold descOf
        simp [ht]
      have hcol : buildColumn is_be points (descOf f) =
          .ok (scalarColOf is_be points f) := by
        rw [hd]
        rw [buildColumn_ok_scalar is_be points ps hpts _ hc1
          (RosDataType.size_pos t) hsp]
        unfold scalarColOf
        simp [ht]
      simp only [List.map_cons, mapOutcome_cons, hcol, RustOutcome.bind_ok]
      rw [mapOutcome_buildColumn_ok is_be points ps hpts fs
        fun g hg => h g (by simp [hg])]
      rfl

theorem toArrow_scalar_success (pcd : PointCloud2)
    (hsz1 : pcd.width * pcd.point_step ≤ pcd.row_step)
    (hsz2 : pcd.data.length = pcd.row_step * pcd.height)
    (hrs : pcd.fields = [] ∨ 0 < pcd.row_step)
    (hf : ∀ f ∈ pcd.fields, goodFieldB pcd.point_step f = true) :
    toArrowArray pcd = .ok (pcd.fields.map
      (scalarColOf pcd.is_bigendian
        (decodePoints pcd.width pcd.point_step pcd.row_step pcd.data))) := by
  have hknown : ∀ f ∈ pcd.fields, knownTagB f = true :=
    fun f hm => goodFieldB_known (hf f hm)
  unfold toArrowArray
  rw [if_pos hsz1, if_pos hsz2, resolveFields_ok _ hknown]
  simp only [RustOutcome.bind_ok]
  cases hfld : pcd.fields with
  | nil =>
      simp only [List.map_nil]
      unfold buildColumns
      simp only [RustOutcome.bind_ok]
      unfold structArrayFrom
      rw [if_pos ⟨by simp, by simp⟩]
  | cons f0 frest =>
      obtain ⟨t0, ht0, _, _, hsp0⟩ :=
        goodFieldB_spec (hf f0 (by rw [hfld]; simp))
      have hps : 0 < pcd.point_step :=
        lt_of_lt_of_le (RosDataType.size_pos t0)
          (le_trans (Nat.le_add_left _ _) hsp0)
      have hrs' : 0 < pcd.row_step := by
        rcases hrs with h | h
        · rw [hfld] at h; simp at h
        · exact h
      obtain ⟨hplen, hpmem⟩ := decodePoints_spec pcd.width pcd.point_step
        pcd.row_step pcd.height pcd.data hps hrs'
        (by rw [Nat.mul_comm]; exact hsz1) hsz2
      have hfc : ∀ f ∈ f0 :: frest, goodFieldB pcd.point_step f = true :=
        hfld ▸ hf
      have hmo := mapOutcome_buildColumn_ok pcd.is_bigendian
        (decodePoints pcd.width pcd.point_step pcd.row_step pcd.data)
        pcd.point_step hpmem (f0 :: frest) hfc
      simp only [List.map_cons] at hmo ⊢
      rw [buildColumns_cons, if_neg (Nat.pos_iff_ne_zero.mp hrs'),
        if_neg (by intro hand; omega), hmo]
      simp only [RustOutcome.bind_ok]
      apply structArrayFrom_ok
      · intro c hc
        rcases List.mem_cons.mp hc with rfl | hmem
        · obtain ⟨t, ht, htne, _, _⟩ := goodFieldB_spec (hfc f0 (by simp))
          unfold scalarColOf
          simp [ht, ArrowArray.dataType, toArrowDatatype_eq_arrayKind htne]
        · obtain ⟨f, hfm, rfl⟩ := List.mem_map.mp hmem
          obtain ⟨t, ht, htne, _, _⟩ := goodFieldB_spec (hfc f (by simp [hfm]))
          unfold scalarColOf
          simp [ht, ArrowArray.dataType, toArrowDatatype_eq_arrayKind htne]
      · intro c hc
        rw [structLen_cons,
          scalarColOf_length _ _ f0 (goodFieldB_known (hfc f0 (by simp)))]
        rcases List.mem_cons.mp hc with rfl | hmem
        · rw [scalarColOf_length _ _ f0 (goodFieldB_known (hfc f0 (by simp)))]
        · obtain ⟨f, hfm, rfl⟩ := List.mem_map.mp hmem
          rw [scalarColOf_length _ _ f (goodFieldB_known (hfc f (by simp [hfm])))]

theorem spanOOBB_false {ps : Nat} {f : PointField} {t : RosDataType}
    (ht : RosDataType.fromU8 f.datatype = some t)
    (h : spanOOBB ps f = false) : f.offset + t.size * f.count ≤ ps := by
  unfold spanOOBB at h
  rw [ht] at h
  simp only [decide_eq_false_iff_not] at h
  omega

theorem mapOutcome_buildColumn_oob (is_be : Bool) (p0 : List Nat)
    (prest : List (List Nat)) (ps : Nat)
    (hpts : ∀ p ∈ p0 :: prest, p.length = ps) :
    ∀ fields : List PointField, (∀ f ∈ fields, knownTagB f = true) →
      (∃ f ∈ fields, spanOOBB ps f = true) →
      mapOutcome (buildColumn is_be (p0 :: prest)) (fields.map descOf) =
        .panicked
  | [], _, hoob => by simp at hoob
  | f :: fs, hk, hoob => by
      obtain ⟨t, ht⟩ := knownTagB_spec (hk f (by simp))
      have hd : descOf f =
          ⟨⟨f.name, t.toArrowDatatype⟩, t, f.offset, t.size, f.count⟩ := by
        unfold descOf
        simp [ht]
      by_cases hof : spanOOBB ps f = true
      · obtain ⟨t', ht', hlt⟩ := spanOOBB_spec hof
        rw [ht] at ht'
        obtain rfl : t = t' := Option.some.inj ht'
        simp only [List.map_cons]
        apply mapOutcome_head_panicked
        rw [hd]
        apply buildColumn_panicked
        show p0.length < f.offset + t.size * f.count
        rw [hpts p0 (by simp)]
        exact hlt
      · have hle : f.offset + t.size * f.count ≤ ps :=
          spanOOBB_false ht (Bool.not_eq_true _ ▸ hof)
        obtain ⟨v, hv⟩ := buildColumn_ok_any is_be (p0 :: prest) ps hpts
          (descOf f) (by rw [hd]; exact hle)
        simp only [List.map_cons]
        apply mapOutcome_cons_ok _ _ _ _ hv
        apply mapOutcome_buildColumn_oob is_be p0 prest ps hpts fs
          (fun g hg => hk g (by simp [hg]))
        rcases hoob with ⟨g, hgm, hgo⟩
        rcases List.mem_cons.mp hgm with rfl | hgm'
        · exact absurd hgo hof
        · exact ⟨g, hgm', hgo⟩

theorem toArrow_oob_panics (pcd : PointCloud2)
    (hsz1 : pcd.width * pcd.point_step ≤ pcd.row_step)
    (hsz2 : pcd.data.length = pcd.row_step * pcd.height)
    (hrs : 0 < pcd.row_step) (hw : 0 < pcd.width) (hh : 0 < pcd.height)
    (hk : ∀ f ∈ pcd.fields, knownTagB f = true)
    (hoob : ∃ f ∈ pcd.fields, spanOOBB pcd.point_step f = true) :
    toArrowArray pcd = .panicked := by
  unfold toArrowArray
  rw [if_pos hsz1, if_pos hsz2, resolveFields_ok _ hk]
  simp only [RustOutcome.bind_ok]
  obtain ⟨fo, hfo, hfoob⟩ := hoob
  have hdata_ne : pcd.data ≠ [] := by
    apply List.length_pos.mp
    rw [hsz2]
    exact Nat.mul_pos hrs hh
  cases hfld : pcd.fields with
  | nil => rw [hfld] at hfo; simp at hfo
  | cons f0 frest =>
      have hkc : ∀ f ∈ f0 :: frest, knownTagB f = true := hfld ▸ hk
      have hfoc : fo ∈ f0 :: frest := hfld ▸ hfo
      by_cases hps : pcd.point_step = 0
      · simp only [List.map_cons]
        rw [buildColumns_cons, if_neg (Nat.pos_iff_ne_zero.mp hrs),
          if_pos ⟨listChunks_ne_nil _ hrs _ hdata_ne, hps⟩]
        rfl
      · have hps' : 0 < pcd.point_step := Nat.pos_of_ne_zero hps
        obtain ⟨hplen, hpmem⟩ := decodePoints_spec pcd.width pcd.point_step
          pcd.row_step pcd.height pcd.data hps' hrs
          (by rw [Nat.mul_comm]; exact hsz1) hsz2
        cases hpts : decodePoints pcd.width pcd.point_step pcd.row_step
            pcd.data with
        | nil =>
            exfalso
            rw [hpts] at hplen
            have := Nat.mul_pos hh hw
            simp at hplen
            omega
        | cons p0 prest =>
            simp only [List.map_cons]
            rw [buildColumns_cons, if_neg (Nat.pos_iff_ne_zero.mp hrs),
              if_neg (by intro hand; omega), hpts, ← List.map_cons]
            rw [mapOutcome_buildColumn_oob pcd.is_bigendian p0 prest
              pcd.point_step (hpts ▸ hpmem) (f0 :: frest) hkc
              ⟨fo, hfoc, hfoob⟩]
            rfl

theorem fromArrowArray_ok_inv {is_be : Bool} {hdr : Header}
    {arr : StructArrayModel} {pc : PointCloud2}
    (h : fromArrowArray is_be hdr arr = .ok pc) :
    ∃ fs total data, encodeFields 0 arr = .ok (fs, total) ∧
      writeAll is_be total (fs.zip (arr.map Prod.snd))
        (List.replicate (structLen arr * total) 0) = .ok data ∧
      pc =
        { header := hdr, height := u32Mod (structLen arr), width := 1,
          fields := fs, is_bigendian := is_be, point_step := u32Mod total,
          row_step := u32Mod total, data := data, is_dense := true } := by
  unfold fromArrowArray at h
  obtain ⟨p, hp, h2⟩ := RustOutcome.bind_eq_ok h
  obtain ⟨d, hd, h3⟩ := RustOutcome.map_eq_ok h2
  exact ⟨p.1, p.2, d, hp, hd, h3.symm⟩

theorem prim_fromArrow_isSome (k : ScalarKind) :
    ∃ rd, RosDataType.fromArrowDatatype (.prim k) = some rd := by
  cases k <;> exact ⟨_, rfl⟩

theorem fromArrow_fsl_none (nm : String) (child : DataType) (ln : Nat) :
    RosDataType.fromArrowDatatype (.fixedSizeList nm child ln) = none := rfl

theorem encodeFields_spec :
    ∀ (arr : StructArrayModel) (off : Nat) {fs : List PointField} {total : Nat},
      encodeFields off arr = .ok (fs, total) →
      fs.length = arr.length ∧ total = off + sumSpans (arr.map Prod.snd) ∧
        List.Forall₂ fieldCountQ fs (arr.map Prod.snd)
  | [], off, fs, total, h => by
      simp only [encodeFields] at h
      injection h with h'
      injection h' with h1 h2
      subst h1
      subst h2
      exact ⟨rfl, by simp [sumSpans], List.Forall₂.nil⟩
  | (f, col) :: rest, off, fs, total, h => by
      cases col with
      | prim k vals =>
          obtain ⟨rd, hrd⟩ := prim_fromArrow_isSome k
          simp only [encodeFields, ArrowArray.dataType, hrd] at h
          obtain ⟨p, hp, heq⟩ := RustOutcome.map_eq_ok h
          obtain ⟨hl, hs, hq⟩ :=
            @encodeFields_spec rest (off + DataType.memSize (.prim k)) p.1 p.2
              (by rw [hp])
          injection heq with h1 h2
          subst h1
          subst h2
          refine ⟨by simp [hl], ?_, ?_⟩
          · simp only [List.map_cons, sumSpans, colSpan, ArrowArray.dataType]
            rw [hs]
            simp only [DataType.memSize]
            omega
          · exact List.Forall₂.cons (by simp [fieldCountQ]) hq
      | fixedSizeList nm k cnt entries =>
          obtain ⟨rd, hrd⟩ := prim_fromArrow_isSome k
          simp only [encodeFields, ArrowArray.dataType, fromArrow_fsl_none,
            hrd] at h
          obtain ⟨p, hp, heq⟩ := RustOutcome.map_eq_ok h
          obtain ⟨hl, hs, hq⟩ :=
            @encodeFields_spec rest (off + DataType.memSize (.prim k) * cnt)
              p.1 p.2 (by rw [hp])
          injection heq with h1 h2
          subst h1
          subst h2
          refine ⟨by simp [hl], ?_, ?_⟩
          · simp only [List.map_cons, sumSpans, colSpan, ArrowArray.dataType]
            rw [hs]
            simp only [DataType.memSize]
            omega
          · exact List.Forall₂.cons (by simp [fieldCountQ]) hq

theorem memSize_mul_ne_width (k : ScalarKind) (c : Nat) :
    dataTypeStructBytes * c ≠ k.width := by
  cases k <;> simp only [dataTypeStructBytes, ScalarKind.width] <;> omega

theorem writeScalarRows_cons (is_be : Bool) (k : ScalarKind)
    (start rangeLen : Nat) (row : List Nat) (rows : List (List Nat)) (v : Nat)
    (vs : List Nat) :
    writeScalarRows is_be k start rangeLen (row :: rows) (v :: vs) =
      if start + rangeLen ≤ row.length then
        if rangeLen = k.width then
          (writeScalarRows is_be k start rangeLen rows vs).map
            fun out => setRange row start (toBytes is_be k.width v) :: out
        else .panicked
      else .panicked := rfl

theorem writeScalarRows_nil_vals (is_be : Bool) (k : ScalarKind)
    (start rangeLen : Nat) (rows : List (List Nat)) :
    writeScalarRows is_be k start rangeLen rows [] = .ok rows := by
  cases rows <;> rfl

theorem writeScalarRows_nil_rows (is_be : Bool) (k : ScalarKind)
    (start rangeLen : Nat) (v : Nat) (vs : List Nat) :
    writeScalarRows is_be k start rangeLen [] (v :: vs) = .ok [] := rfl

theorem writeElems_cons (is_be : Bool) (k : ScalarKind) (elemSize : Nat)
    (s : Nat) (srest : List Nat) (v : Nat) (vs : List Nat) :
    writeElems is_be k elemSize (s :: srest) (v :: vs) =
      if ((s :: srest).take elemSize).length = k.width then
        (writeElems is_be k elemSize ((s :: srest).drop elemSize) vs).map
          fun out => toBytes is_be k.width v ++ out
      else .panicked := rfl

theorem writeListRows_cons (is_be : Bool) (k : ScalarKind)
    (start rangeLen elemSize : Nat) (row : List Nat) (rows : List (List Nat))
    (e : List Nat) (es : List (List Nat)) :
    writeListRows is_be k start rangeLen elemSize (row :: rows) (e :: es) =
      if start + rangeLen ≤ row.length then
        if elemSize = 0 then .panicked
        else
          (writeElems is_be k elemSize ((row.drop start).take rangeLen)
              e).bind fun slice =>
            (writeListRows is_be k start rangeLen elemSize rows es).map
              fun out => setRange row start slice :: out
      else .panicked := rfl

theorem writeListRows_nil_entries (is_be : Bool) (k : ScalarKind)
    (start rangeLen elemSize : Nat) (rows : List (List Nat)) :
    writeListRows is_be k start rangeLen elemSize rows [] = .ok rows := by
  cases rows <;> rfl

theorem writeListRows_nil_rows (is_be : Bool) (k : ScalarKind)
    (start rangeLen elemSize : Nat) (e : List Nat) (es : List (List Nat)) :
    writeListRows is_be k start rangeLen elemSize [] (e :: es) = .ok [] := rfl

theorem writeColumn_prim (is_be : Bool) (rs : Nat) (f : PointField)
    (k : ScalarKind) (vals : List Nat) (data : List Nat) :
    writeColumn is_be rs f (.prim k vals) data =
      if rs = 0 then .panicked
      else (writeScalarRows is_be k f.offset (dataTypeStructBytes * f.count)
        (listChunks rs data) vals).map joinList := rfl

theorem writeColumn_fsl (is_be : Bool) (rs : Nat) (f : PointField)
    (nm : String) (k : ScalarKind) (cnt : Nat) (entries : List (List Nat))
    (data : List Nat) :
    writeColumn is_be rs f (.fixedSizeList nm k cnt entries) data =
      if rs = 0 then .panicked
      else (writeListRows is_be k f.offset
        ((DataType.fixedSizeList nm (.prim k) cnt).memSize * f.count)
        (DataType.prim k).memSize (listChunks rs data) entries).map
          joinList := rfl

theorem writeScalarRows_cons_panicked (is_be : Bool) (k : ScalarKind)
    (start rangeLen : Nat) (hw : rangeLen ≠ k.width) (row : List Nat)
    (rows : List (List Nat)) (v : Nat) (vs : List Nat) :
    writeScalarRows is_be k start rangeLen (row :: rows) (v :: vs) =
      .panicked := by
  rw [writeScalarRows_cons]
  by_cases hin : start + rangeLen ≤ row.length
  · rw [if_pos hin, if_neg hw]
  · rw [if_neg hin]

theorem writeColumn_prim_not_ok (is_be : Bool) (rs : Nat) (f : PointField)
    (k : ScalarKind) (vals : List Nat) (data : List Nat)
    (hrs : rs ≠ 0) (hrows : listChunks rs data ≠ []) (hvals : vals ≠ [])
    (d : List Nat) :
    writeColumn is_be rs f (.prim k vals) data ≠ .ok d := by
  rw [writeColumn_prim, if_neg hrs]
  cases hr : listChunks rs data with
  | nil => exact absurd hr hrows
  | cons row rows =>
      cases vals with
      | nil => exact absurd rfl hvals
      | cons v vs =>
          rw [writeScalarRows_cons_panicked is_be k f.offset _
            (memSize_mul_ne_width k f.count) row rows v vs]
          simp

theorem scalarWidth_lt_struct (k : ScalarKind) :
    k.width < dataTypeStructBytes := by
  cases k <;> simp [dataTypeStructBytes, ScalarKind.width]

theorem writeElems_cons_panicked (is_be : Bool) (k : ScalarKind)
    (elemSize : Nat) (hlt : k.width < elemSize) (slice : List Nat)
    (hsl : elemSize ≤ slice.length) (v : Nat) (vs : List Nat) :
    writeElems is_be k elemSize slice (v :: vs) = .panicked := by
  cases slice with
  | nil => simp at hsl; omega
  | cons s srest =>
      rw [writeElems_cons, if_neg]
      rw [List.length_take]
      simp only [List.length_cons] at hsl ⊢
      omega

theorem writeListRows_empty_entries (is_be : Bool) (k : ScalarKind)
    (start elemSize : Nat) :
    ∀ (entries : List (List Nat)) (rows : List (List Nat)),
      (∀ e ∈ entries, e = []) → elemSize ≠ 0 →
      ∀ out, writeListRows is_be k start 0 elemSize rows entries = .ok out →
        out = rows
  | [], rows, _, _, out, h => by
      rw [writeListRows_nil_entries] at h
      exact (RustOutcome.ok.inj h).symm
  | e :: es, [], _, _, out, h => by
      rw [writeListRows_nil_rows] at h
      exact (RustOutcome.ok.inj h).symm
  | e :: es, row :: rest, hemp, helem, out, h => by
      have he : e = [] := hemp e (by simp)
      subst he
      rw [writeListRows_cons] at h
      by_cases hin : start + 0 ≤ row.length
      · rw [if_pos hin, if_neg helem] at h
        have hslice : (row.drop start).take 0 = [] := by simp
        rw [hslice] at h
        have hwe : writeElems is_be k elemSize [] [] = .ok [] := rfl
        rw [hwe, RustOutcome.bind_ok] at h
        obtain ⟨out2, hout2, heq⟩ := RustOutcome.map_eq_ok h
        have hrest : out2 = rest :=
          writeListRows_empty_entries is_be k start elemSize es rest
            (fun e2 he2 => hemp e2 (by simp [he2])) helem out2 hout2
        subst hrest
        rw [← heq]
        simp [setRange]
      · rw [if_neg hin] at h
        exact absurd h (by simp)

theorem writeColumn_fsl_ok (is_be : Bool) (rs : Nat) (f : PointField)
    (nm : String) (k : ScalarKind) (cnt : Nat) (entries : List (List Nat))
    (data d : List Nat) (hrs : rs ≠ 0) (hrows : listChunks rs data ≠ [])
    (hentries : entries ≠ []) (hlen : ∀ e ∈ entries, e.length = cnt)
    (hcount : f.count = cnt)
    (hjoin : joinList (listChunks rs data) = data)
    (hok : writeColumn is_be rs f (.fixedSizeList nm k cnt entries) data =
      .ok d) : cnt = 0 ∧ d = data := by
  rw [writeColumn_fsl, if_neg hrs] at hok
  have helem : (DataType.prim k).memSize ≠ 0 := by
    simp [DataType.memSize, dataTypeStructBytes]
  rcases Nat.eq_zero_or_pos cnt with hcnt | hcnt
  · refine ⟨hcnt, ?_⟩
    have hrange : (DataType.fixedSizeList nm (.prim k) cnt).memSize *
        f.count = 0 := by
      rw [hcount, hcnt]
      simp
    rw [hrange] at hok
    obtain ⟨out, hout, heq⟩ := RustOutcome.map_eq_ok hok
    have hall : ∀ e ∈ entries, e = [] := fun e he =>
      List.eq_nil_of_length_eq_zero (by rw [hlen e he, hcnt])
    have : out = listChunks rs data :=
      writeListRows_empty_entries is_be k f.offset _ entries
        (listChunks rs data) hall helem out hout
    subst this
    rw [← heq, hjoin]
  · exfalso
    cases hr : listChunks rs data with
    | nil => exact absurd hr hrows
    | cons row rows =>
        cases hents : entries with
        | nil => exact absurd hents hentries
        | cons e0 erest =>
            subst hents
            rw [hr, writeListRows_cons] at hok
            by_cases hin : f.offset +
                (DataType.fixedSizeList nm (.prim k) cnt).memSize * f.count ≤
                row.length
            · rw [if_pos hin, if_neg helem] at hok
              have he0 : e0.length = cnt := hlen e0 (by simp)
              cases he0c : e0 with
              | nil =>
                  rw [he0c] at he0
                  simp at he0
                  omega
              | cons x xs =>
                  have hm1 : (DataType.prim k).memSize = dataTypeStructBytes :=
                    rfl
                  have hm2 : (DataType.fixedSizeList nm (.prim k)
                      cnt).memSize = dataTypeStructBytes +
                      (fieldStructBytes - dataTypeStructBytes +
                        dataTypeStructBytes + nm.length) := rfl
                  rw [hm1, hm2] at hok
                  rw [hm2] at hin
                  have hbig : dataTypeStructBytes ≤
                      (dataTypeStructBytes + (fieldStructBytes -
                        dataTypeStructBytes + dataTypeStructBytes +
                        nm.length)) * f.count := by
                    rw [hcount]
                    calc dataTypeStructBytes = dataTypeStructBytes * 1 := by
                          omega
                      _ ≤ (dataTypeStructBytes + (fieldStructBytes -
                            dataTypeStructBytes + dataTypeStructBytes +
                            nm.length)) * cnt :=
                          Nat.mul_le_mul (by omega) (by omega)
                  have hslice : dataTypeStructBytes ≤
                      ((row.drop f.offset).take
                        ((dataTypeStructBytes + (fieldStructBytes -
                          dataTypeStructBytes + dataTypeStructBytes +
                          nm.length)) * f.count)).length := by
                    rw [List.length_take, List.length_drop]
                    omega
                  rw [he0c, writeElems_cons_panicked is_be k _
                    (scalarWidth_lt_struct k) _ hslice x xs] at hok
                  simp at hok
            · rw [if_neg hin] at hok
              simp at hok

theorem writeAll_nil (is_be : Bool) (rs : Nat) (data : List Nat) :
    writeAll is_be rs [] data = .ok data := rfl

theorem writeAll_cons (is_be : Bool) (rs : Nat) (f : PointField)
    (col : ArrowArray) (rest : List (PointField × ArrowArray))
    (data : List Nat) :
    writeAll is_be rs ((f, col) :: rest) data =
      (writeColumn is_be rs f col data).bind (writeAll is_be rs rest) := rfl

theorem wfColB_prim {n : Nat} {k : ScalarKind} {vs : List Nat}
    (h : wfColB n (.prim k vs) = true) : vs.length = n := by
  simpa [wfColB] using h

theorem wfColB_fsl {n : Nat} {nm : String} {k : ScalarKind} {ln : Nat}
    {vs : List (List Nat)} (h : wfColB n (.fixedSizeList nm k ln vs) = true) :
    vs.length = n ∧ ln < 2147483648 ∧ ∀ v ∈ vs, v.length = ln := by
  simpa [wfColB] using h

theorem mem_zip_snd {α β : Type} :
    ∀ {l₁ : List α} {l₂ : List β} {p : α × β}, p ∈ l₁.zip l₂ → p.2 ∈ l₂ := by
  intro l₁
  induction l₁ with
  | nil => intro l₂ p h; simp [List.zip] at h
  | cons x xs ih =>
      intro l₂ p h
      cases l₂ with
      | nil => simp [List.zip] at h
      | cons y ys =>
          rw [List.zip_cons_cons] at h
          rcases List.mem_cons.mp h with rfl | h'
          · simp
          · simp [ih h']

theorem forall₂_mem_zip {α β : Type} {R : α → β → Prop} :
    ∀ {l₁ : List α} {l₂ : List β}, List.Forall₂ R l₁ l₂ →
      ∀ p ∈ l₁.zip l₂, R p.1 p.2 := by
  intro l₁ l₂ h
  induction h with
  | nil => intro p hp; simp [List.zip] at hp
  | cons hr _ ih =>
      intro p hp
      rw [List.zip_cons_cons] at hp
      rcases List.mem_cons.mp hp with rfl | hp'
      · exact hr
      · exact ih p hp'

theorem map_snd_zip_own {α β : Type} :
    ∀ (l₁ : List α) (l₂ : List β), l₁.length = l₂.length →
      (l₁.zip l₂).map Prod.snd = l₂
  | [], [], _ => rfl
  | [], _ :: _, h => by simp at h
  | _ :: _, [], h => by simp at h
  | x :: xs, y :: ys, h => by
      rw [List.zip_cons_cons, List.map_cons,
        map_snd_zip_own xs ys (by simpa using h)]

theorem sumSpans_zero :
    ∀ cols : List ArrowArray, (∀ c ∈ cols, colSpan c = 0) → sumSpans cols = 0
  | [], _ => rfl
  | c :: cs, h => by
      simp only [sumSpans]
      rw [h c (by simp), sumSpans_zero cs fun c' hc' => h c' (by simp [hc'])]

theorem writeAll_ok_spans_zero (is_be : Bool) (total L : Nat) (hL : 0 < L)
    (htot : 0 < total) :
    ∀ (pairs : List (PointField × ArrowArray)) (data d : List Nat),
      data.length = L * total →
      (∀ pr ∈ pairs, wfColB L pr.2 = true ∧ fieldCountQ pr.1 pr.2) →
      writeAll is_be total pairs data = .ok d →
      (∀ pr ∈ pairs, colSpan pr.2 = 0) ∧ d = data
  | [], data, d, _, _, h => by
      rw [writeAll_nil] at h
      exact ⟨by simp, (RustOutcome.ok.inj h).symm⟩
  | (f, col) :: rest, data, d, hdlen, hwf, h => by
      rw [writeAll_cons] at h
      obtain ⟨data2, hcol, hrest⟩ := RustOutcome.bind_eq_ok h
      have hdn : data ≠ [] := by
        apply List.length_pos.mp
        rw [hdlen]
        exact Nat.mul_pos hL htot
      have hrows : listChunks total data ≠ [] :=
        listChunks_ne_nil total htot data hdn
      have hjoin : joinList (listChunks total data) = data :=
        (listChunks_exact total htot L data (by rw [hdlen, Nat.mul_comm])).2.2
      cases col with
      | prim k vals =>
          exfalso
          have hv : vals.length = L :=
            wfColB_prim (hwf (f, .prim k vals) (by simp)).1
          have hvne : vals ≠ [] := by
            apply List.length_pos.mp
            omega
          exact writeColumn_prim_not_ok is_be total f k vals data
            (Nat.pos_iff_ne_zero.mp htot) hrows hvne data2 hcol
      | fixedSizeList nm k cnt entries =>
          obtain ⟨hel, hcnt31, helen⟩ :=
            wfColB_fsl (hwf (f, .fixedSizeList nm k cnt entries) (by simp)).1
          have hcq : f.count = u32Mod cnt :=
            (hwf (f, .fixedSizeList nm k cnt entries) (by simp)).2
          have hcq' : f.count = cnt := by
            rw [hcq]
            exact Nat.mod_eq_of_lt (by unfold u32Mod at *; omega)
          have hent_ne : entries ≠ [] := by
            apply List.length_pos.mp
            omega
          obtain ⟨hc0, hd2⟩ := writeColumn_fsl_ok is_be total f nm k cnt
            entries data data2 (Nat.pos_iff_ne_zero.mp htot) hrows hent_ne
            helen hcq' hjoin hcol
          rw [hd2] at hrest
          obtain ⟨hsp, hdd⟩ := writeAll_ok_spans_zero is_be total L hL htot
            rest data d hdlen (fun pr hpr => hwf pr (by simp [hpr])) hrest
          refine ⟨?_, hdd⟩
          intro pr hpr
          rcases List.mem_cons.mp hpr with rfl | hpr'
          · simp [colSpan, hc0]
          · exact hsp pr hpr'

theorem writeAll_nil_data (is_be : Bool) (rs : Nat) :
    ∀ (pairs : List (PointField × ArrowArray)) (d : List Nat),
      writeAll is_be rs pairs [] = .ok d → d = []
  | [], d, h => by
      rw [writeAll_nil] at h
      exact (RustOutcome.ok.inj h).symm
  | (f, col) :: rest, d, h => by
      rw [writeAll_cons] at h
      obtain ⟨d2, hcol, hrest⟩ := RustOutcome.bind_eq_ok h
      by_cases hrs : rs = 0
      · exfalso
        cases col with
        | prim k vals =>
            rw [writeColumn_prim, if_pos hrs] at hcol
            exact absurd hcol (by simp)
        | fixedSizeList nm k cnt entries =>
            rw [writeColumn_fsl, if_pos hrs] at hcol
            exact absurd hcol (by simp)
      · have hd2 : d2 = [] := by
          cases col with
          | prim k vals =>
              rw [writeColumn_prim, if_neg hrs, listChunks_nil] at hcol
              cases vals with
              | nil =>
                  rw [writeScalarRows_nil_vals] at hcol
                  exact (RustOutcome.ok.inj hcol).symm
              | cons v vs =>
                  rw [writeScalarRows_nil_rows] at hcol
                  exact (RustOutcome.ok.inj hcol).symm
          | fixedSizeList nm k cnt entries =>
              rw [writeColumn_fsl, if_neg hrs, listChunks_nil] at hcol
              cases entries with
              | nil =>
                  rw [writeListRows_nil_entries] at hcol
                  exact (RustOutcome.ok.inj hcol).symm
              | cons e es =>
                  rw [writeListRows_nil_rows] at hcol
                  exact (RustOutcome.ok.inj hcol).symm
        subst hd2
        exact writeAll_nil_data is_be rs rest d hrest

theorem fromArrowArray_ok_structLen_zero {is_be : Bool} {hdr : Header}
    {arr : StructArrayModel} {pc : PointCloud2}
    (hwf : wfStructB arr = true)
    (h : fromArrowArray is_be hdr arr = .ok pc) : structLen arr = 0 := by
  by_contra hL0
  have hL : 0 < structLen arr := Nat.pos_of_ne_zero hL0
  obtain ⟨fs, total, data, henc, hwrite, hpc⟩ := fromArrowArray_ok_inv h
  obtain ⟨hlen_fs, htotal, hforall⟩ := encodeFields_spec arr 0 henc
  have harr_ne : arr ≠ [] := by
    intro h'
    rw [h', structLen_nil] at hL
    omega
  have hzip_ne : fs.zip (arr.map Prod.snd) ≠ [] := by
    cases harr : arr with
    | nil => exact absurd harr harr_ne
    | cons c0 crest =>
        cases hfs : fs with
        | nil =>
            rw [hfs, harr] at hlen_fs
            simp at hlen_fs
        | cons g0 grest =>
            rw [List.map_cons, List.zip_cons_cons]
            simp
  by_cases htot : total = 0
  · cases hzip : fs.zip (arr.map Prod.snd) with
    | nil => exact absurd hzip hzip_ne
    | cons pr prest =>
        rw [hzip] at hwrite
        obtain ⟨f1, col1⟩ := pr
        rw [writeAll_cons] at hwrite
        obtain ⟨d2, hcol, _⟩ := RustOutcome.bind_eq_ok hwrite
        cases col1 with
        | prim k vals =>
            rw [writeColumn_prim, if_pos htot] at hcol
            exact absurd hcol (by simp)
        | fixedSizeList nm k cnt entries =>
            rw [writeColumn_fsl, if_pos htot] at hcol
            exact absurd hcol (by simp)
  · have htot' : 0 < total := Nat.pos_of_ne_zero htot
    have hwfpairs : ∀ pr ∈ fs.zip (arr.map Prod.snd),
        wfColB (structLen arr) pr.2 = true ∧ fieldCountQ pr.1 pr.2 := by
      intro pr hpr
      constructor
      · have hmem : pr.2 ∈ arr.map Prod.snd := mem_zip_snd hpr
        obtain ⟨c, hc, hc2⟩ := List.mem_map.mp hmem
        have := (List.all_eq_true.mp hwf) c hc
        rw [← hc2]
        exact this
      · exact forall₂_mem_zip hforall pr hpr
    obtain ⟨hspans, _⟩ := writeAll_ok_spans_zero is_be total (structLen arr)
      hL htot' (fs.zip (arr.map Prod.snd)) _ data (by simp) hwfpairs hwrite
    have hcols_eq : (fs.zip (arr.map Prod.snd)).map Prod.snd =
        arr.map Prod.snd :=
      map_snd_zip_own _ _ (by rw [hlen_fs, List.length_map])
    have hss : sumSpans (arr.map Prod.snd) = 0 := by
      apply sumSpans_zero
      intro c hc
      rw [← hcols_eq] at hc
      obtain ⟨pr, hpr, hpr2⟩ := List.mem_map.mp hc
      rw [← hpr2]
      exact hspans pr hpr
    rw [hss] at htotal
    omega

theorem forall2_map_self {α β : Type} (g : α → β) (R : β → α → Prop) :
    ∀ l : List α, (∀ x ∈ l, R (g x) x) → List.Forall₂ R (l.map g) l
  | [], _ => List.Forall₂.nil
  | x :: xs, h =>
      List.Forall₂.cons (h x (by simp))
        (forall2_map_self g R xs fun y hy => h y (by simp [hy]))

set_option maxRecDepth 8192 in
/-- C1: the round-trip claim fails on the code.  At the single-column
table `arrC1` holding one `UInt16` value, `from_arrow_array` panics (the
per-record span is computed with `DataType::size()` — the 24-byte
memory-accounting size — while a `u16` element serializes to 2 bytes, so
`copy_from_slice` aborts on the length mismatch), hence
`to_arrow_array` applied to the result of `from_arrow_array` cannot
succeed, let alone reproduce the column. -/
theorem c1_roundtrip_encode_panics :
    fromArrowArray false hdr0 arrC1 = .panicked := by decide

/-- C2: the registry is not injective.  `to_arrow_datatype` maps both
`U16` and `U8` to Arrow `UInt8` (line 434 of `with_arrow.rs`), so
`from_arrow_datatype (to_arrow_datatype U16) = some U8 ≠ some U16`,
contradicting the code's own `from_arrow_datatype` table, which maps
Arrow `UInt16` back to `U16`. -/
theorem c2_registry_aliases_u16 :
    RosDataType.toArrowDatatype .U16 = .prim .u8 ∧
    RosDataType.toArrowDatatype .U8 = .prim .u8 ∧
    RosDataType.fromArrowDatatype (RosDataType.toArrowDatatype .U16) =
      some .U8 ∧
    RosDataType.fromArrowDatatype (.prim .u16) = some .U16 := by decide

set_option maxRecDepth 8192 in
/-- C3 counterexample: `pcdC3` satisfies both size preconditions
(`1 * 2 ≤ 2` and `data.len = 2 = 2 * 1`) yet `to_arrow_array` panics —
the field has `count = 2`, so the column is a `FixedSizeListArray`
while the declared `Field` carries the scalar type, and
`StructArray::from` aborts on the type mismatch.  The outcome is
neither a table nor a typed error value. -/
theorem c3_counterexample : toArrowArray pcdC3 = .panicked := by decide

/-- C3 (amended): restricted to clouds whose every field has a known
tag other than `U16`, `count = 1`, and a span inside `point_step`, and
whose `row_step` is positive (or no fields at all), `to_arrow_array`
returns a table with one column per field descriptor in which every
column has exactly `width * height` entries. -/
theorem c3_amended (pcd : PointCloud2)
    (h1 : pcd.width * pcd.point_step ≤ pcd.row_step)
    (h2 : pcd.data.length = pcd.row_step * pcd.height)
    (h3 : pcd.fields = [] ∨ 0 < pcd.row_step)
    (h4 : ∀ f ∈ pcd.fields, goodFieldB pcd.point_step f = true) :
    ∃ cols, toArrowArray pcd = .ok cols ∧
      List.Forall₂ (fun (c : ArrowField × ArrowArray) (f : PointField) =>
        c.1.name = f.name ∧ c.2.length = pcd.width * pcd.height)
        cols pcd.fields := by
  refine ⟨_, toArrow_scalar_success pcd h1 h2 h3 h4, ?_⟩
  by_cases hfe : pcd.fields = []
  · rw [hfe]
    exact List.Forall₂.nil
  · obtain ⟨f0, hf0⟩ := List.exists_mem_of_ne_nil _ hfe
    obtain ⟨t0, ht0, _, _, hsp0⟩ := goodFieldB_spec (h4 f0 hf0)
    have hps : 0 < pcd.point_step :=
      lt_of_lt_of_le (RosDataType.size_pos t0)
        (le_trans (Nat.le_add_left _ _) hsp0)
    have hrs : 0 < pcd.row_step := h3.resolve_left hfe
    obtain ⟨hplen, _⟩ := decodePoints_spec pcd.width pcd.point_step
      pcd.row_step pcd.height pcd.data hps hrs
      (by rw [Nat.mul_comm]; exact h1) h2
    apply forall2_map_self
    intro f hf
    refine ⟨scalarColOf_name _ _ f (goodFieldB_known (h4 f hf)), ?_⟩
    rw [scalarColOf_length _ _ f (goodFieldB_known (h4 f hf)), hplen,
      Nat.mul_comm]

/-- C3 amended witness: the concrete two-point single-`U8`-field cloud
`pcdC3w` decodes successfully with one 2-entry column. -/
theorem c3_amended_witness :
    ∃ cols, toArrowArray pcdC3w = .ok cols ∧
      List.Forall₂ (fun (c : ArrowField × ArrowArray) (f : PointField) =>
        c.1.name = f.name ∧ c.2.length = pcdC3w.width * pcdC3w.height)
        cols pcdC3w.fields :=
  c3_amended pcdC3w (by decide) (by decide) (Or.inr (by decide)) (by decide)

set_option maxRecDepth 8192 in
/-- C4 counterexample: spec Scenario C (an `F64` field at offset 8 with
`point_step = 12`) makes `to_arrow_array` panic — the slice
`point_bytes[8..16]` is out of bounds — instead of returning a
`FieldSpanOutOfBounds` error value. -/
theorem c4_counterexample : toArrowArray pcdC4 = .panicked := by decide

/-- C4 (amended): when a field's span `offset + size * count` runs past
`point_step`, `to_arrow_array` panics (slice index out of bounds); no
error value is returned.  Hypotheses: the size preconditions hold, all
tags are known, at least one point exists, and `row_step > 0`. -/
theorem c4_amended (pcd : PointCloud2)
    (h1 : pcd.width * pcd.point_step ≤ pcd.row_step)
    (h2 : pcd.data.length = pcd.row_step * pcd.height)
    (h3 : 0 < pcd.row_step) (h4 : 0 < pcd.width) (h5 : 0 < pcd.height)
    (h6 : ∀ f ∈ pcd.fields, knownTagB f = true)
    (h7 : ∃ f ∈ pcd.fields, spanOOBB pcd.point_step f = true) :
    toArrowArray pcd = .panicked :=
  toArrow_oob_panics pcd h1 h2 h3 h4 h5 h6 h7

/-- C4 amended witness: an `F32` field at offset 4 with
`point_step = 6` panics. -/
theorem c4_amended_witness : toArrowArray pcdC4w = .panicked :=
  c4_amended pcdC4w (by decide) (by decide) (by decide) (by decide)
    (by decide) (by decide)
    ⟨{ name := "y", offset := 4, datatype := 7, count := 1 }, by decide,
      by decide⟩

/-- C5: `to_arrow_array` checks its size preconditions first and
surfaces violations as `ensure!` error values (no table is produced):
any cloud with `width * point_step > row_step` or with
`data.len ≠ row_step * height` yields an error result. -/
theorem c5_size_checks_error (pcd : PointCloud2)
    (h : pcd.row_step < pcd.width * pcd.point_step ∨
      pcd.data.length ≠ pcd.row_step * pcd.height) :
    ∃ e, toArrowArray pcd = .err e := by
  unfold toArrowArray
  by_cases h1 : pcd.width * pcd.point_step ≤ pcd.row_step
  · rw [if_pos h1]
    have h2 : pcd.data.length ≠ pcd.row_step * pcd.height := by
      rcases h with h | h
      · omega
      · exact h
    rw [if_neg h2]
    exact ⟨_, rfl⟩
  · rw [if_neg h1]
    exact ⟨_, rfl⟩

/-- C5 witness: `width * point_step = 6 > 4 = row_step` errors. -/
theorem c5_witness : ∃ e, toArrowArray pcdC5w = .err e :=
  c5_size_checks_error pcdC5w (Or.inl (by decide))

/-- C6: `from_arrow_array` takes no caller endianness preference; the
single flag it consults is `cfg!(target_endian = "big")` (modelled by
the `is_be` parameter), which selects `to_be_bytes`/`to_le_bytes` for
every serialized element and is stored verbatim in the produced
message, so the `is_bigendian` flag truthfully reports the target
endianness. -/
theorem c6_native_endian_flag (is_be : Bool) (hdr : Header)
    (arr : StructArrayModel) (pc : PointCloud2)
    (h : fromArrowArray is_be hdr arr = .ok pc) :
    pc.is_bigendian = is_be := by
  obtain ⟨fs, total, data, _, _, hpc⟩ := fromArrowArray_ok_inv h
  rw [hpc]

set_option maxRecDepth 8192 in
/-- C6 witness: encoding `arrC6` on a little-endian target produces
`is_bigendian = false`. -/
theorem c6_witness : pcC6.is_bigendian = false :=
  c6_native_endian_flag false hdr0 arrC6 pcC6 (by decide)

set_option maxRecDepth 8192 in
/-- C7: the tight-packing claim fails on the code.  For the two-`UInt8`
column table `arrC7` the emitted offsets are `[0, 24]` and
`point_step = 48` — the running total advances by `DataType::size()`
(the 24-byte memory-accounting size of the `DataType` enum), not by the
1-byte element width the claim (and the decode direction) uses; the
claim expects offsets `[0, 1]` and `point_step = 2`.  The
`row_step = point_step` part does hold. -/
theorem c7_offsets_use_memsize :
    fromArrowArray false hdr0 arrC7 = .ok pcC7 ∧ pcC7.point_step = 48 ∧
      pcC7.fields.map PointField.offset = [0, 24] ∧
      pcC7.point_step ≠ 1 + 1 ∧ pcC7.row_step = pcC7.point_step := by decide

set_option maxRecDepth 8192 in
/-- C8: spec Scenario B fails on the code.  Encoding the
`rgb : FixedSizeList(u8, 3)` column with rows `[[10,20,30],[40,50,60]]`
panics: the per-record byte range is
`FixedSizeList_DataType::size() * 3` (far larger than `point_step`, as
`DataType::size()` is memory accounting, not data width), so the row
slice `row[0..420]` is out of bounds — no 6-byte buffer is produced. -/
theorem c8_scenario_b_panics :
    fromArrowArray false hdr0 arrC8 = .panicked := by decide

/-- C9: every `PointCloud2` that `from_arrow_array` successfully
returns (for a well-formed Arrow `StructArray` input) satisfies the
size preconditions `to_arrow_array` checks: `data.len = row_step *
height`, `width * point_step ≤ row_step`, and indeed `width = 1` with
`row_step = point_step`. -/
theorem c9_encode_output_decodable (is_be : Bool) (hdr : Header)
    (arr : StructArrayModel) (hwf : wfStructB arr = true)
    (pc : PointCloud2) (h : fromArrowArray is_be hdr arr = .ok pc) :
    pc.data.length = pc.row_step * pc.height ∧
      pc.width * pc.point_step ≤ pc.row_step ∧ pc.width = 1 ∧
      pc.row_step = pc.point_step := by
  have hL : structLen arr = 0 := fromArrowArray_ok_structLen_zero hwf h
  obtain ⟨fs, total, data, henc, hwrite, hpc⟩ := fromArrowArray_ok_inv h
  rw [hL] at hwrite
  simp only [Nat.zero_mul, List.replicate] at hwrite
  have hdata : data = [] := writeAll_nil_data _ _ _ _ hwrite
  subst hdata
  subst hpc
  refine ⟨?_, ?_, rfl, rfl⟩
  · simp [hL, u32Mod]
  · simp

set_option maxRecDepth 8192 in
/-- C9 witness: the encode of the empty `Int16` column table `arrC9`
satisfies all decode size preconditions. -/
theorem c9_witness :
    pcC9.data.length = pcC9.row_step * pcC9.height ∧
      pcC9.width * pcC9.point_step ≤ pcC9.row_step ∧ pcC9.width = 1 ∧
      pcC9.row_step = pcC9.point_step :=
  c9_encode_output_decodable false hdr0 arrC9 (by decide) pcC9 (by decide)

/-- C10: duplicate field names neither fail nor merge: under the
decode-success hypotheses (which place no constraint on names),
`to_arrow_array` returns exactly one column per descriptor, in
descriptor order, with every name — duplicates included — preserved. -/
theorem c10_duplicate_names_ok (pcd : PointCloud2)
    (h1 : pcd.width * pcd.point_step ≤ pcd.row_step)
    (h2 : pcd.data.length = pcd.row_step * pcd.height)
    (h3 : pcd.fields = [] ∨ 0 < pcd.row_step)
    (h4 : ∀ f ∈ pcd.fields, goodFieldB pcd.point_step f = true) :
    ∃ cols, toArrowArray pcd = .ok cols ∧
      cols.map (fun c => c.1.name) = pcd.fields.map PointField.name ∧
      cols.length = pcd.fields.length := by
  refine ⟨_, toArrow_scalar_success pcd h1 h2 h3 h4, ?_, ?_⟩
  · rw [List.map_map]
    apply map_congr_mem
    intro f hf
    exact scalarColOf_name _ _ f (goodFieldB_known (h4 f hf))
  · rw [List.length_map]

/-- C10 witness: `pcdC10w` has two fields both named `"x"`; decoding
succeeds with two columns named `["x", "x"]`. -/
theorem c10_witness :
    ∃ cols, toArrowArray pcdC10w = .ok cols ∧
      cols.map (fun c => c.1.name) = pcdC10w.fields.map PointField.name ∧
      cols.length = pcdC10w.fields.length :=
  c10_duplicate_names_ok pcdC10w (by decide) (by decide)
    (Or.inr (by decide)) (by decide)

end R2RMsgExt
